import Mathlib

/-!
A shallow embedding of `src/server.c` (AdamBromiley/c-timeout-server): a
single-threaded poll-based server with a fixed connection table
(`struct pollfd pfds[MAX_CONNECTIONS]`), one POSIX timer per slot, and an
event loop that evicts idle connections on timer expiry.

Modelling conventions:
* `struct pollfd` becomes `Pollfd` (`fd : Int`, free slot iff `fd < 0`,
  matching the `-1` sentinel and the `pfd->fd < 0` tests in the C code).
* A POSIX timer is represented by its observable `itimerspec.it_value`
  remaining time (`TimerVal`); `timer_gettime` on a disarmed timer reports
  a zero `it_value`, so the disarmed state is `⟨0, 0⟩`.
* Fallible syscalls (`accept`, `timer_settime` arming, `recv`, `poll`) are
  driven by oracle inputs so every control path of the C code is covered.
* The asynchronously-set `sig_atomic_t` flags (`timeout_triggered`,
  `interrupt_triggered`) are modelled as explicit values observed at each
  point the C code reads them.
-/

namespace TimeoutServer

/-- `MAX_CONNECTIONS` from server.c (table capacity, listener included). -/
def MAX_CONNECTIONS : Nat := 10

/-- `BUFFER_SIZE` from server.c (receive buffer size, terminator included). -/
def BUFFER_SIZE : Nat := 1024

/-- `TIMEOUT` from server.c: client idle timeout in seconds. -/
def TIMEOUT : Nat := 30

/-- The `POLLIN` bit used in `events`/`revents` masks. -/
def POLLIN : Nat := 1

/-- `EXIT_SUCCESS`. -/
def EXIT_SUCCESS : Nat := 0

/-- `EXIT_FAILURE`. -/
def EXIT_FAILURE : Nat := 1

/-- One `struct pollfd` table entry: descriptor, requested events, returned
events. A slot is free iff `fd < 0` (the code stores `-1`). -/
structure Pollfd where
  fd : Int
  events : Nat
  revents : Nat
deriving Repr, DecidableEq

/-- Default table entry used for out-of-range reads (never relevant under
the well-formedness hypotheses carried by the theorems). -/
def pfd0 : Pollfd := ⟨-1, 0, 0⟩

/-- The observable state of one POSIX timer: the remaining time
`it_value` reported by `timer_gettime` (seconds, nanoseconds). -/
structure TimerVal where
  sec : Nat
  nsec : Nat
deriving Repr, DecidableEq

/-- A disarmed timer reports a zero remaining time. -/
def timer0 : TimerVal := ⟨0, 0⟩

/-- The whole mutable server state: the `pfds` array and the `timers`
array (their values as observed through `timer_gettime`). -/
structure ServerState where
  pfds : List Pollfd
  timers : List TimerVal
deriving Repr, DecidableEq

/-- Descriptor stored at slot `i`. -/
def fdAt (st : ServerState) (i : Nat) : Int := (st.pfds.getD i pfd0).fd

/-- `events` mask of slot `i`. -/
def eventsAt (st : ServerState) (i : Nat) : Nat := (st.pfds.getD i pfd0).events

/-- `revents` mask of slot `i` (what the last `poll` reported). -/
def reventsAt (st : ServerState) (i : Nat) : Nat := (st.pfds.getD i pfd0).revents

/-- Remaining time of slot `i`'s timer. -/
def timerAt (st : ServerState) (i : Nat) : TimerVal := st.timers.getD i timer0

/-- `arm_timer` (server.c:93): `timer_settime` with
`it_value.tv_sec = TIMEOUT`; on success the timer's pending deadline is
`TIMEOUT` seconds away. -/
def armedTimer : TimerVal := ⟨TIMEOUT, 0⟩

/-- `disarm_timer` (server.c:107): `timer_settime` with a zeroed
`itimerspec`, which clears any pending deadline regardless of the timer's
previous state. -/
def disarm_timer (_t : TimerVal) : TimerVal := ⟨0, 0⟩

/-- `timer_expired` (server.c:119): reads `it_value` via `timer_gettime`
and reports expiry iff both fields are zero. -/
def timer_expired (t : TimerVal) : Bool := t.sec == 0 && t.nsec == 0

/-- `close_connection` (server.c:232): disarm the slot's timer, close the
descriptor, and store the `-1` free sentinel. `events`/`revents` are left
as they are, exactly as in the C code. -/
def close_connection (st : ServerState) (i : Nat) : ServerState :=
  { pfds := st.pfds.set i { st.pfds.getD i pfd0 with fd := -1 },
    timers := st.timers.set i (disarm_timer (st.timers.getD i timer0)) }

/-- Outcome of `accept_connection` (server.c:198); the constructor mirrors
the reported condition. `tooManyClosed fd` records that the freshly
accepted descriptor `fd` was immediately closed because no free slot
exists ("Too many connections already accepted"). -/
inductive AcceptResult where
  | acceptFailed
  | accepted (slot : Nat)
  | armFailed (slot : Nat)
  | tooManyClosed (fd : Int)
deriving Repr, DecidableEq

/-- The scan of server.c:208: the first slot in `1..MAX_CONNECTIONS-1`
whose `fd` is negative. The table length plays the role of
`MAX_CONNECTIONS` (the array always has exactly that many entries). -/
def findFreeSlot (st : ServerState) : Option Nat :=
  (List.range' 1 (st.pfds.length - 1)).find? (fun i => decide ((st.pfds.getD i pfd0).fd < 0))

/-- `accept_connection` (server.c:198). `accRet` is the value returned by
`accept` (negative on failure) and `armOk` tells whether the
`timer_settime` call inside `arm_timer` succeeds. Returns the reported
outcome together with the table state after the call. -/
def accept_connection (accRet : Int) (armOk : Bool) (st : ServerState) :
    AcceptResult × ServerState :=
  if accRet < 0 then (.acceptFailed, st)
  else
    match findFreeSlot st with
    | some i =>
      let st1 : ServerState :=
        { st with pfds := st.pfds.set i { st.pfds.getD i pfd0 with fd := accRet, events := POLLIN } }
      if armOk then
        (.accepted i, { st1 with timers := st1.timers.set i armedTimer })
      else
        (.armFailed i, close_connection st1 i)
    | none => (.tooManyClosed accRet, st)

/-- Number of occupied client slots (indices `1..length-1` with a
non-negative descriptor). -/
def countClients (st : ServerState) : Nat :=
  ((List.range' 1 (st.pfds.length - 1)).filter (fun i => decide (0 ≤ fdAt st i))).length

/- ### Basic list-access lemmas -/

theorem getD_set_self {α : Type} (l : List α) (i : Nat) (a d : α) (h : i < l.length) :
    (l.set i a).getD i d = a := by
  simp [List.getD_eq_getElem?_getD, List.getElem?_set_self, h]

theorem getD_set_ne {α : Type} (l : List α) (i j : Nat) (a d : α) (h : i ≠ j) :
    (l.set i a).getD j d = l.getD j d := by
  simp [List.getD_eq_getElem?_getD, List.getElem?_set_ne h]

/- ### Frame lemmas for close_connection -/

theorem close_connection_pfds_length (st : ServerState) (i : Nat) :
    (close_connection st i).pfds.length = st.pfds.length := by
  simp [close_connection]

theorem close_connection_timers_length (st : ServerState) (i : Nat) :
    (close_connection st i).timers.length = st.timers.length := by
  simp [close_connection]

theorem fdAt_close_self (st : ServerState) (i : Nat) (h : i < st.pfds.length) :
    fdAt (close_connection st i) i = -1 := by
  simp only [fdAt, close_connection]
  rw [getD_set_self _ _ _ _ h]

theorem timerAt_close_self (st : ServerState) (i : Nat) (h : i < st.timers.length) :
    timerAt (close_connection st i) i = timer0 := by
  simp only [timerAt, close_connection]
  rw [getD_set_self _ _ _ _ h]
  rfl

theorem fdAt_close_other (st : ServerState) (i j : Nat) (h : i ≠ j) :
    fdAt (close_connection st i) j = fdAt st j := by
  simp only [fdAt, close_connection]
  rw [getD_set_ne _ _ _ _ _ h]

theorem timerAt_close_other (st : ServerState) (i j : Nat) (h : i ≠ j) :
    timerAt (close_connection st i) j = timerAt st j := by
  simp only [timerAt, close_connection]
  rw [getD_set_ne _ _ _ _ _ h]

theorem eventsAt_close (st : ServerState) (i j : Nat) :
    eventsAt (close_connection st i) j = eventsAt st j := by
  by_cases h : i = j
  · subst h
    by_cases hl : i < st.pfds.length
    · simp only [eventsAt, close_connection]
      rw [getD_set_self _ _ _ _ hl]
    · simp only [eventsAt, close_connection,
        List.set_eq_of_length_le (Nat.le_of_not_lt hl)]
  · simp only [eventsAt, close_connection]
    rw [getD_set_ne _ _ _ _ _ h]

theorem reventsAt_close (st : ServerState) (i j : Nat) :
    reventsAt (close_connection st i) j = reventsAt st j := by
  by_cases h : i = j
  · subst h
    by_cases hl : i < st.pfds.length
    · simp only [reventsAt, close_connection]
      rw [getD_set_self _ _ _ _ hl]
    · simp only [reventsAt, close_connection,
        List.set_eq_of_length_le (Nat.le_of_not_lt hl)]
  · simp only [reventsAt, close_connection]
    rw [getD_set_ne _ _ _ _ _ h]

/- ### The timeout-eviction scan (server.c:329-347) -/

/-- The loop state visible at the top of each `event_loop` iteration: the
table plus the `timeout_triggered` flag. (`interrupt_triggered` is read at
several distinct instants, so it is passed as an oracle instead.) -/
structure LoopState where
  server : ServerState
  timeoutTriggered : Bool
deriving Repr, DecidableEq

/-- The body of the scan at server.c:338-346, iterating over the given
slot indices: a slot with `pfd->fd >= 0 && timer_expired(timer)` is closed
via `close_connection` and its index reported ("Client i timed out"). -/
def scan_go : List Nat → ServerState → ServerState × List Nat
  | [], st => (st, [])
  | i :: rest, st =>
    if decide (0 ≤ fdAt st i) && timer_expired (timerAt st i) then
      let r := scan_go rest (close_connection st i)
      (r.1, i :: r.2)
    else
      scan_go rest st

/-- The full scan over client slots `1..n-1` (`for (size_t i = 1U; i < n; ++i)`). -/
def timeout_scan (st : ServerState) (n : Nat) : ServerState × List Nat :=
  scan_go (List.range' 1 (n - 1)) st

/-- The timeout-check step at the top of an iteration (server.c:329-347):
if `timeout_triggered` is set, clear it and run the scan. `late` models a
`SIGUSR1` delivered after the flag was cleared (a new expiry during the
scan): it simply leaves the flag set for the next pass. -/
def check_timeouts (late : Bool) (n : Nat) (ls : LoopState) : LoopState × List Nat :=
  if ls.timeoutTriggered then
    let r := timeout_scan ls.server n
    ({ server := r.1, timeoutTriggered := late }, r.2)
  else
    ({ ls with timeoutTriggered := ls.timeoutTriggered || late }, [])

/-- Slot `j` looks exactly the same in states `a` and `b`. -/
def slotUnchanged (a b : ServerState) (j : Nat) : Prop :=
  fdAt a j = fdAt b j ∧ eventsAt a j = eventsAt b j ∧
  reventsAt a j = reventsAt b j ∧ timerAt a j = timerAt b j

theorem slotUnchanged_refl (a : ServerState) (j : Nat) : slotUnchanged a a j :=
  ⟨rfl, rfl, rfl, rfl⟩

theorem slotUnchanged_trans {a b c : ServerState} {j : Nat}
    (h1 : slotUnchanged a b j) (h2 : slotUnchanged b c j) : slotUnchanged a c j :=
  ⟨h1.1.trans h2.1, h1.2.1.trans h2.2.1, h1.2.2.1.trans h2.2.2.1, h1.2.2.2.trans h2.2.2.2⟩

theorem slotUnchanged_close {st : ServerState} {i j : Nat} (h : i ≠ j) :
    slotUnchanged (close_connection st i) st j :=
  ⟨fdAt_close_other st i j h, eventsAt_close st i j, reventsAt_close st i j,
   timerAt_close_other st i j h⟩

theorem scan_go_pfds_length : ∀ (l : List Nat) (st : ServerState),
    (scan_go l st).1.pfds.length = st.pfds.length := by
  intro l
  induction l with
  | nil => intro st; rfl
  | cons i rest ih =>
    intro st
    by_cases hc : (decide (0 ≤ fdAt st i) && timer_expired (timerAt st i)) = true
    · simp only [scan_go, hc, if_true]
      rw [ih (close_connection st i), close_connection_pfds_length]
    · simp only [scan_go, hc, if_false]
      exact ih st

theorem scan_go_timers_length : ∀ (l : List Nat) (st : ServerState),
    (scan_go l st).1.timers.length = st.timers.length := by
  intro l
  induction l with
  | nil => intro st; rfl
  | cons i rest ih =>
    intro st
    by_cases hc : (decide (0 ≤ fdAt st i) && timer_expired (timerAt st i)) = true
    · simp only [scan_go, hc, if_true]
      rw [ih (close_connection st i), close_connection_timers_length]
    · simp only [scan_go, hc, if_false]
      exact ih st

theorem scan_go_not_mem : ∀ (l : List Nat) (st : ServerState) (j : Nat), j ∉ l →
    slotUnchanged (scan_go l st).1 st j := by
  intro l
  induction l with
  | nil => intro st j _; exact slotUnchanged_refl _ _
  | cons i rest ih =>
    intro st j hj
    have hji : j ≠ i := fun h => hj (h ▸ List.mem_cons_self i rest)
    have hjrest : j ∉ rest := fun h => hj (List.mem_cons_of_mem i h)
    by_cases hc : (decide (0 ≤ fdAt st i) && timer_expired (timerAt st i)) = true
    · simp only [scan_go, hc, if_true]
      exact slotUnchanged_trans (ih (close_connection st i) j hjrest)
        (slotUnchanged_close (Ne.symm hji))
    · simp only [scan_go, hc, if_false]
      exact ih st j hjrest

theorem scan_go_closed_sublist : ∀ (l : List Nat) (st : ServerState),
    List.Sublist (scan_go l st).2 l := by
  intro l
  induction l with
  | nil => intro st; exact List.Sublist.refl []
  | cons i rest ih =>
    intro st
    by_cases hc : (decide (0 ≤ fdAt st i) && timer_expired (timerAt st i)) = true
    · simp only [scan_go, hc, if_true]
      exact List.Sublist.cons₂ i (ih (close_connection st i))
    · simp only [scan_go, hc, if_false]
      exact List.Sublist.cons i (ih st)

theorem scan_go_spec : ∀ (l : List Nat) (st : ServerState), l.Nodup →
    (∀ i ∈ l, i < st.pfds.length ∧ i < st.timers.length) →
    ∀ i ∈ l,
      (0 ≤ fdAt st i ∧ timer_expired (timerAt st i) = true →
        fdAt (scan_go l st).1 i = -1 ∧ timerAt (scan_go l st).1 i = timer0 ∧
        i ∈ (scan_go l st).2) ∧
      (¬(0 ≤ fdAt st i ∧ timer_expired (timerAt st i) = true) →
        slotUnchanged (scan_go l st).1 st i ∧ i ∉ (scan_go l st).2) := by
  intro l
  induction l with
  | nil => intro st _ _ i hi; exact absurd hi (List.not_mem_nil i)
  | cons i0 rest ih =>
    intro st hnd hb i hi
    have hnd0 : i0 ∉ rest := (List.nodup_cons.mp hnd).1
    have hndr : rest.Nodup := (List.nodup_cons.mp hnd).2
    by_cases hc : (decide (0 ≤ fdAt st i0) && timer_expired (timerAt st i0)) = true
    · have hcs : 0 ≤ fdAt st i0 ∧ timer_expired (timerAt st i0) = true := by
        have := Bool.and_eq_true_iff.mp hc
        exact ⟨of_decide_eq_true this.1, this.2⟩
      simp only [scan_go, hc, if_true]
      rcases List.mem_cons.mp hi with rfl | hir
      · constructor
        · intro _
          have hfr := scan_go_not_mem rest (close_connection st i) i hnd0
          refine ⟨?_, ?_, List.mem_cons_self i _⟩
          · rw [hfr.1, fdAt_close_self st i (hb i hi).1]
          · rw [hfr.2.2.2, timerAt_close_self st i (hb i hi).2]
        · intro hno
          exact absurd hcs hno
      · have hii0 : i ≠ i0 := fun h => hnd0 (h ▸ hir)
        have hbr : ∀ k ∈ rest, k < (close_connection st i0).pfds.length ∧
            k < (close_connection st i0).timers.length := by
          intro k hk
          rw [close_connection_pfds_length, close_connection_timers_length]
          exact hb k (List.mem_cons_of_mem i0 hk)
        have hfd : fdAt (close_connection st i0) i = fdAt st i :=
          fdAt_close_other st i0 i (Ne.symm hii0)
        have htm : timerAt (close_connection st i0) i = timerAt st i :=
          timerAt_close_other st i0 i (Ne.symm hii0)
        have hspec := ih (close_connection st i0) hndr hbr i hir
        constructor
        · intro hyes
          have h1 := hspec.1 (by rw [hfd, htm]; exact hyes)
          exact ⟨h1.1, h1.2.1, List.mem_cons_of_mem i0 h1.2.2⟩
        · intro hno
          have h2 := hspec.2 (by rw [hfd, htm]; exact hno)
          refine ⟨slotUnchanged_trans h2.1 (slotUnchanged_close hii0.symm), ?_⟩
          intro hmem
          rcases List.mem_cons.mp hmem with h | h
          · exact hii0 h
          · exact h2.2 h
    · simp only [scan_go, hc, if_false]
      rcases List.mem_cons.mp hi with rfl | hir
      · constructor
        · intro hyes
          exact absurd (Bool.and_eq_true_iff.mpr ⟨decide_eq_true hyes.1, hyes.2⟩) hc
        · intro _
          refine ⟨scan_go_not_mem rest st i hnd0, ?_⟩
          intro hmem
          exact hnd0 ((scan_go_closed_sublist rest st).mem hmem)
      · have hspec := ih st hndr
          (fun k hk => hb k (List.mem_cons_of_mem i0 hk)) i hir
        exact hspec

/- ### The client-read buffer bound (server.c:410-434) -/

/-- The byte count passed to `recv` at server.c:413: `BUFFER_SIZE - 1U`,
reserving the final byte of the `BUFFER_SIZE`-byte buffer for the
terminator. -/
def recv_count : Nat := BUFFER_SIZE - 1

/-- The return value of a successful `recv(pfd->fd, buffer, BUFFER_SIZE - 1U, 0)`
when `avail` bytes are pending: the kernel delivers at most the requested
count. This value is also the index of the `buffer[ret] = '\0'` write at
server.c:433. -/
def recv_result (avail : Nat) : Nat := min avail recv_count

/- ### Concrete states used by the closed witness/counterexample theorems -/

/-- A two-slot table (listener + one client) with both slots occupied. -/
def stC1 : ServerState :=
  ⟨[⟨3, POLLIN, 0⟩, ⟨4, POLLIN, 0⟩], [⟨0, 0⟩, ⟨25, 0⟩]⟩

/-- A three-slot table: listener, an occupied client with an expired
timer, and an occupied client with 10 seconds remaining. -/
def lsC2 : LoopState :=
  ⟨⟨[⟨3, POLLIN, 0⟩, ⟨4, POLLIN, 0⟩, ⟨5, POLLIN, 0⟩],
    [⟨0, 0⟩, ⟨0, 0⟩, ⟨10, 0⟩]⟩, true⟩

/-- A two-slot table whose client slot is free. -/
def stC9 : ServerState :=
  ⟨[⟨3, POLLIN, 0⟩, ⟨-1, POLLIN, 0⟩], [⟨0, 0⟩, ⟨0, 0⟩]⟩

/- ### Claim theorems C1, C2, C8, C9, C10 -/

/-- C1: for every capacity `n ≥ 2`, at most `n - 1` client connections are
ever simultaneously occupied (the table only has client slots
`1..n-1`), and when all of them are occupied, `accept_connection`
closes the newly accepted descriptor, reports the capacity-exceeded
condition (`tooManyClosed`), and returns the table completely
unchanged — every slot's occupied/free state, handle, and timer
deadline included. -/
theorem claim_C1_accept_capacity (n : Nat) (st : ServerState) (_hn : 2 ≤ n)
    (hp : st.pfds.length = n) (accRet : Int) (hacc : 0 ≤ accRet) (armOk : Bool)
    (hfull : ∀ i ∈ List.range' 1 (n - 1), 0 ≤ fdAt st i) :
    (∀ st2 : ServerState, st2.pfds.length = n → countClients st2 ≤ n - 1) ∧
    accept_connection accRet armOk st = (.tooManyClosed accRet, st) := by
  constructor
  · intro st2 hlen
    have h1 : countClients st2 ≤ (List.range' 1 (st2.pfds.length - 1)).length :=
      List.length_filter_le _ _
    rw [List.length_range'] at h1
    rw [hlen] at h1
    exact h1
  · have hfind : findFreeSlot st = none := by
      unfold findFreeSlot
      apply List.find?_eq_none.mpr
      intro x hx
      rw [hp] at hx
      have h0 := hfull x hx
      simp only [fdAt] at h0
      simp only [decide_eq_true_eq]
      exact Int.not_lt.mpr h0
    unfold accept_connection
    rw [if_neg (Int.not_lt.mpr hacc), hfind]

/-- Witness for C1: a full 2-slot table rejects a 3rd connection and is
returned unchanged. -/
theorem claim_C1_accept_capacity_witness :
    accept_connection 5 true stC1 = (.tooManyClosed 5, stC1) :=
  (claim_C1_accept_capacity 2 stC1 (by decide) (by decide) 5 (by decide) true
    (by decide)).2

/-- C2: when `timeout_triggered` is set at the top of an iteration, the
loop clears the flag before scanning (so it afterwards holds exactly
the value of any signal delivered during the scan), and the scan
closes — disarms the timer of, frees, and reports — precisely the
occupied client slots in `1..n-1` whose timer `timer_expired`; every
other client slot and the listener slot 0 are left completely
untouched. Hence a connection whose timer has run down to zero
(no data for `TIMEOUT` seconds) is closed by this timer-driven scan
alone, before any I/O is waited on. -/
theorem claim_C2_timeout_scan (n : Nat) (ls : LoopState) (late : Bool)
    (hp : ls.server.pfds.length = n) (ht : ls.server.timers.length = n)
    (hflag : ls.timeoutTriggered = true) :
    (check_timeouts late n ls).1.timeoutTriggered = late ∧
    (∀ i, 1 ≤ i → i < n →
      (0 ≤ fdAt ls.server i ∧ timer_expired (timerAt ls.server i) = true →
        fdAt (check_timeouts late n ls).1.server i = -1 ∧
        timerAt (check_timeouts late n ls).1.server i = timer0 ∧
        i ∈ (check_timeouts late n ls).2) ∧
      (¬(0 ≤ fdAt ls.server i ∧ timer_expired (timerAt ls.server i) = true) →
        slotUnchanged (check_timeouts late n ls).1.server ls.server i ∧
        i ∉ (check_timeouts late n ls).2)) ∧
    slotUnchanged (check_timeouts late n ls).1.server ls.server 0 := by
  have hck : check_timeouts late n ls =
      ({ server := (timeout_scan ls.server n).1, timeoutTriggered := late },
        (timeout_scan ls.server n).2) := by
    simp only [check_timeouts, hflag, if_true]
  rw [hck]
  refine ⟨rfl, ?_, ?_⟩
  · intro i h1 h2
    have hmem : i ∈ List.range' 1 (n - 1) := by
      rw [List.mem_range'_1]
      omega
    have hb : ∀ k ∈ List.range' 1 (n - 1),
        k < ls.server.pfds.length ∧ k < ls.server.timers.length := by
      intro k hk
      rw [List.mem_range'_1] at hk
      rw [hp, ht]
      omega
    exact scan_go_spec (List.range' 1 (n - 1)) ls.server
      (List.nodup_range' ..) hb i hmem
  · have h0 : (0 : Nat) ∉ List.range' 1 (n - 1) := by
      rw [List.mem_range'_1]
      omega
    exact scan_go_not_mem _ ls.server 0 h0

/-- Witness for C2: in `lsC2` the scan closes expired client 1, leaves
unexpired client 2 untouched and unreported, and clears the flag. -/
theorem claim_C2_timeout_scan_witness :
    fdAt (check_timeouts false 3 lsC2).1.server 1 = -1 ∧
    1 ∈ (check_timeouts false 3 lsC2).2 ∧
    fdAt (check_timeouts false 3 lsC2).1.server 2 = fdAt lsC2.server 2 ∧
    (check_timeouts false 3 lsC2).1.timeoutTriggered = false := by
  have h := claim_C2_timeout_scan 3 lsC2 false rfl rfl rfl
  have h1 := (h.2.1 1 (by decide) (by decide)).1 (by decide)
  have h2 := (h.2.1 2 (by decide) (by decide)).2 (by decide)
  exact ⟨h1.1, h1.2.2, h2.1.1, h.1⟩

/-- C8: the `recv` at server.c:413 is passed a capacity of
`BUFFER_SIZE - 1`, so at most `BUFFER_SIZE - 1` bytes are ever read
into the `BUFFER_SIZE`-byte buffer, and for any number of pending
bytes the index `ret` of the terminator write `buffer[ret] = '\0'`
(server.c:433) is strictly below `BUFFER_SIZE`: the write is always
in bounds. -/
theorem claim_C8_recv_bound (avail : Nat) :
    recv_result avail ≤ BUFFER_SIZE - 1 ∧ recv_result avail < BUFFER_SIZE := by
  refine ⟨Nat.min_le_right _ _, ?_⟩
  have h := Nat.min_le_right avail recv_count
  simp only [recv_result, recv_count, BUFFER_SIZE] at h ⊢
  omega

/-- C9: `timer_expired` reports expiry exactly when the remaining time it
reads back is zero seconds and zero nanoseconds; a disarmed timer
reports a zero `it_value`, so `timer_expired` is also `true` for it.
The eviction scan nevertheless never closes a free slot — and leaves
it completely untouched — only because the `pfd->fd >= 0` test comes
first. -/
theorem claim_C9_expired_on_disarmed (t : TimerVal) (st : ServerState)
    (n i : Nat) (hp : st.pfds.length = n) (ht : st.timers.length = n)
    (h1 : 1 ≤ i) (h2 : i < n) (hfree : fdAt st i < 0) :
    (timer_expired t = true ↔ (t.sec = 0 ∧ t.nsec = 0)) ∧
    timer_expired (disarm_timer t) = true ∧
    i ∉ (timeout_scan st n).2 ∧
    slotUnchanged (timeout_scan st n).1 st i := by
  refine ⟨?_, rfl, ?_⟩
  · simp [timer_expired]
  · have hmem : i ∈ List.range' 1 (n - 1) := by
      rw [List.mem_range'_1]
      omega
    have hb : ∀ k ∈ List.range' 1 (n - 1),
        k < st.pfds.length ∧ k < st.timers.length := by
      intro k hk
      rw [List.mem_range'_1] at hk
      rw [hp, ht]
      omega
    have hspec := (scan_go_spec (List.range' 1 (n - 1)) st
      (List.nodup_range' ..) hb i hmem).2
      (fun hocc => absurd hocc.1 (Int.not_le.mpr hfree))
    exact ⟨hspec.2, hspec.1⟩

/-- Witness for C9: the free slot 1 of `stC9` carries a zero-remaining
timer, `timer_expired` holds for it, yet the scan reports nothing. -/
theorem claim_C9_expired_on_disarmed_witness :
    timer_expired (disarm_timer ⟨7, 5⟩) = true ∧ 1 ∉ (timeout_scan stC9 2).2 := by
  have h := claim_C9_expired_on_disarmed ⟨7, 5⟩ stC9 2 1 rfl rfl (by decide)
    (by decide) (by decide)
  exact ⟨h.2.1, h.2.2.1⟩

/-- C10: `disarm_timer` is idempotent — `timer_settime` with a zeroed
`itimerspec` clears any pending deadline whatever the previous state,
so disarming an already-disarmed timer succeeds and applying disarm
twice is observationally equal to applying it once; afterwards the
timer has no pending deadline (its remaining time reads back zero). -/
theorem claim_C10_disarm_idempotent (t : TimerVal) :
    disarm_timer (disarm_timer t) = disarm_timer t ∧
    disarm_timer timer0 = timer0 ∧
    timer_expired (disarm_timer t) = true :=
  ⟨rfl, rfl, rfl⟩

/- ### Timer creation and destruction (server.c:62-90) -/

/-- `destroy_timers` body (server.c:81): `timer_delete` each timer at the
given indices in order, stopping with failure at the first delete that
fails. `deleteOk i` is the success of `timer_delete(timers[i])`; `alloc`
holds each timer object's allocated flag. -/
def destroy_go (deleteOk : Nat → Bool) : List Nat → List Bool → List Bool × Bool
  | [], alloc => (alloc, true)
  | i :: rest, alloc =>
    if deleteOk i then destroy_go deleteOk rest (alloc.set i false)
    else (alloc, false)

/-- `destroy_timers(timers, n)` (server.c:81): destroy indices `0..n-1`. -/
def destroy_timers (deleteOk : Nat → Bool) (alloc : List Bool) (n : Nat) :
    List Bool × Bool :=
  destroy_go deleteOk (List.range n) alloc

/-- `create_timers` body (server.c:62): `timer_create` for `i = 0..n-1`
(`createOk i` is the success of the i-th `timer_create`); if creation `i`
fails, the `i` previously created timers are destroyed via
`destroy_timers(timers, i)` (whose result is ignored) and the whole call
fails. -/
def create_go (createOk deleteOk : Nat → Bool) : List Nat → List Bool → List Bool × Bool
  | [], alloc => (alloc, true)
  | i :: rest, alloc =>
    if createOk i then create_go createOk deleteOk rest (alloc.set i true)
    else ((destroy_go deleteOk (List.range i) alloc).1, false)

/-- `create_timers(timers, n)` starting from no timer allocated. -/
def create_timers (createOk deleteOk : Nat → Bool) (n : Nat) : List Bool × Bool :=
  create_go createOk deleteOk (List.range n) (List.replicate n false)

theorem getD_set_false (l : List Bool) (i j : Nat) :
    (l.set i false).getD j false = if j = i then false else l.getD j false := by
  by_cases hji : j = i
  · subst hji
    by_cases hl : j < l.length
    · rw [getD_set_self _ _ _ _ hl]
      simp
    · rw [List.set_eq_of_length_le (Nat.le_of_not_lt hl)]
      simp [List.getD_eq_getElem?_getD, List.getElem?_eq_none (Nat.le_of_not_lt hl)]
  · rw [getD_set_ne _ _ _ _ _ (fun h => hji h.symm)]
    simp [hji]

theorem getD_set_true (l : List Bool) (i j : Nat) (hi : i < l.length) :
    (l.set i true).getD j false = if j = i then true else l.getD j false := by
  by_cases hji : j = i
  · subst hji
    rw [getD_set_self _ _ _ _ hi]
    simp
  · rw [getD_set_ne _ _ _ _ _ (fun h => hji h.symm)]
    simp [hji]

theorem destroy_go_all_ok (deleteOk : Nat → Bool) (hdel : ∀ i, deleteOk i = true) :
    ∀ (l : List Nat) (alloc : List Bool),
      (destroy_go deleteOk l alloc).2 = true ∧
      ∀ j, (destroy_go deleteOk l alloc).1.getD j false =
        if j ∈ l then false else alloc.getD j false := by
  intro l
  induction l with
  | nil =>
    intro alloc
    refine ⟨rfl, fun j => ?_⟩
    simp [destroy_go]
  | cons i rest ih =>
    intro alloc
    have hstep : destroy_go deleteOk (i :: rest) alloc =
        destroy_go deleteOk rest (alloc.set i false) := by
      simp only [destroy_go, hdel i, if_true]
    rw [hstep]
    refine ⟨(ih (alloc.set i false)).1, fun j => ?_⟩
    rw [(ih (alloc.set i false)).2 j, getD_set_false]
    by_cases hjr : j ∈ rest
    · simp [hjr]
    · by_cases hji : j = i
      · simp [hjr, hji]
      · simp [hjr, hji]

theorem create_go_all_ok (createOk deleteOk : Nat → Bool) :
    ∀ (l : List Nat) (alloc : List Bool), (∀ i ∈ l, createOk i = true) →
      (∀ i ∈ l, i < alloc.length) →
      (create_go createOk deleteOk l alloc).2 = true ∧
      ∀ j, (create_go createOk deleteOk l alloc).1.getD j false =
        if j ∈ l then true else alloc.getD j false := by
  intro l
  induction l with
  | nil =>
    intro alloc _ _
    refine ⟨rfl, fun j => ?_⟩
    simp [create_go]
  | cons i rest ih =>
    intro alloc hok hlen
    have hstep : create_go createOk deleteOk (i :: rest) alloc =
        create_go createOk deleteOk rest (alloc.set i true) := by
      simp only [create_go, hok i (List.mem_cons_self i rest), if_true]
    rw [hstep]
    have hlen2 : ∀ k ∈ rest, k < (alloc.set i true).length := by
      intro k hk
      rw [List.length_set]
      exact hlen k (List.mem_cons_of_mem i hk)
    have hr := ih (alloc.set i true)
      (fun k hk => hok k (List.mem_cons_of_mem i hk)) hlen2
    refine ⟨hr.1, fun j => ?_⟩
    rw [hr.2 j, getD_set_true _ _ _ (hlen i (List.mem_cons_self i rest))]
    by_cases hjr : j ∈ rest
    · simp [hjr]
    · by_cases hji : j = i
      · simp [hjr, hji]
      · simp [hjr, hji]

theorem create_go_fail (createOk deleteOk : Nat → Bool)
    (hdel : ∀ i, deleteOk i = true) :
    ∀ (len m : Nat) (alloc : List Bool),
      (∀ j, alloc.getD j false = true → j < m) →
      ∀ kf, m ≤ kf → kf < m + len → createOk kf = false →
      (∀ j, m ≤ j → j < kf → createOk j = true) →
      (create_go createOk deleteOk (List.range' m len) alloc).2 = false ∧
      ∀ j, (create_go createOk deleteOk (List.range' m len) alloc).1.getD j false = false := by
  intro len
  induction len with
  | zero =>
    intro m alloc _ kf h1 h2 _ _
    omega
  | succ len ih =>
    intro m alloc hset kf h1 h2 hkf hfirst
    rw [List.range'_succ]
    by_cases hm : createOk m = true
    · have hkfm : kf ≠ m := fun h => by rw [h, hm] at hkf; cases hkf
      have hstep : create_go createOk deleteOk (m :: List.range' (m + 1) len) alloc =
          create_go createOk deleteOk (List.range' (m + 1) len) (alloc.set m true) := by
        simp only [create_go, hm, if_true]
      rw [hstep]
      have hset2 : ∀ j, (alloc.set m true).getD j false = true → j < m + 1 := by
        intro j hj
        by_cases hjm : j = m
        · omega
        · rw [getD_set_ne _ _ _ _ _ (fun h => hjm h.symm)] at hj
          have := hset j hj
          omega
      exact ih (m + 1) (alloc.set m true) hset2 kf (by omega) (by omega) hkf
        (fun j hj1 hj2 => hfirst j (by omega) hj2)
    · have hm0 : createOk m = false := Bool.eq_false_iff.mpr hm
      have hstep : create_go createOk deleteOk (m :: List.range' (m + 1) len) alloc =
          ((destroy_go deleteOk (List.range m) alloc).1, false) := by
        simp only [create_go, hm0, Bool.false_eq_true, if_false]
      rw [hstep]
      refine ⟨rfl, fun j => ?_⟩
      have hd := (destroy_go_all_ok deleteOk hdel (List.range m) alloc).2 j
      rw [hd]
      by_cases hjm : j ∈ List.range m
      · simp [hjm]
      · simp only [hjm, if_false]
        by_cases ha : alloc.getD j false = true
        · exfalso
          have := hset j ha
          rw [List.mem_range] at hjm
          omega
        · exact Bool.eq_false_iff.mpr ha

/-- The `createOk` oracle used by the C7 witness: only timer 0 creates
successfully, timer 1 fails. -/
def cOkC7 : Nat → Bool := fun i => decide (i < 1)

/-- The `deleteOk` oracle used by the C7 witness: `timer_delete` on a
valid timer id always succeeds. -/
def dOkC7 : Nat → Bool := fun _ => true

/-- C7: `create_timers(timers, n)` is atomic on failure. Provided
`timer_delete` on a valid timer succeeds (POSIX: it can only fail on
an invalid timer id), either every `timer_create` succeeds and all
`n` timers end up allocated with the call succeeding, or — if the
first failing creation is the `k`-th — the `k` previously created
timers are released again and the call fails leaving no timer
allocated by it. -/
theorem claim_C7_create_atomic (createOk deleteOk : Nat → Bool) (n : Nat)
    (hdel : ∀ i, deleteOk i = true) :
    ((∀ i, i < n → createOk i = true) →
      (create_timers createOk deleteOk n).2 = true ∧
      ∀ j, j < n → (create_timers createOk deleteOk n).1.getD j false = true) ∧
    (∀ k, k < n → createOk k = false → (∀ j, j < k → createOk j = true) →
      (create_timers createOk deleteOk n).2 = false ∧
      ∀ j, (create_timers createOk deleteOk n).1.getD j false = false) := by
  constructor
  · intro hok
    have h := create_go_all_ok createOk deleteOk (List.range n) (List.replicate n false)
      (fun i hi => hok i (List.mem_range.mp hi))
      (fun i hi => by rw [List.length_replicate]; exact List.mem_range.mp hi)
    refine ⟨h.1, fun j hj => ?_⟩
    rw [create_timers, h.2 j]
    simp [List.mem_range.mpr hj]
  · intro k hk hkfail hfirst
    have h := create_go_fail createOk deleteOk hdel n 0 (List.replicate n false)
      (fun j hj => by simp at hj) k (Nat.zero_le k) (by omega) hkfail
      (fun j _ hj => hfirst j hj)
    rw [create_timers, List.range_eq_range']
    exact h

/-- Witness for C7: with creation failing at index 1 of 2, the whole call
fails and both allocation flags are back to false. -/
theorem claim_C7_create_atomic_witness :
    (create_timers cOkC7 dOkC7 2).2 = false ∧
    (create_timers cOkC7 dOkC7 2).1.getD 0 false = false ∧
    (create_timers cOkC7 dOkC7 2).1.getD 1 false = false := by
  have h := (claim_C7_create_atomic cOkC7 dOkC7 2 (fun i => rfl)).2 1 (by decide)
    (by decide) (fun j hj => by
      have : j = 0 := by omega
      subst this
      rfl)
  exact ⟨h.1, h.2 0, h.2 1⟩

/- ### The event loop (server.c:316-437) -/

/-- Result of the `recv` at server.c:413: orderly disconnect (`0`),
`EINTR`, another error, or `len` bytes of payload. -/
inductive RecvRes where
  | zero
  | eintr
  | fail
  | bytes (len : Nat)
deriving Repr, DecidableEq

/-- Result of the `poll` at server.c:350: interrupted by a signal,
failed with another error, or returned with `revents` reported per
slot (`rev i`; `poll` always reports `0` for negative descriptors,
which `do_poll` enforces). A `ready` outcome with every `revents`
zero cannot occur under POSIX for an infinite-timeout poll. -/
inductive PollRes where
  | eintr
  | failed
  | ready (rev : Nat → Nat)

/-- All oracle inputs of one `while` iteration of `event_loop`:
the `interrupt_triggered` value read at the top (`intrTop`) and at each
index of the dispatch `for` loop (`intrDuring i`); whether a `SIGUSR1`
arrives after `timeout_triggered` was cleared (`lateTimeout`); the
`poll` outcome; the `accept` return value and the success of the
`arm_timer` inside `accept_connection`; per-slot `arm_timer` success
and `recv` results. -/
structure IterOracles where
  intrTop : Bool
  lateTimeout : Bool
  pollRes : PollRes
  accRet : Int
  accArmOk : Bool
  armOk : Nat → Bool
  recv : Nat → RecvRes
  intrDuring : Nat → Bool

/-- The read part of the client branch (server.c:413-434), entered after
the timer was rearmed: `recv` returning 0 closes the connection
("Client i disconnected"); `EINTR` just continues to the next slot;
any other error is fatal to the whole loop (`return 1`, first
component `true`); data is terminated and printed, the table
untouched. -/
def handle_recv (res : RecvRes) (st : ServerState) (i : Nat) : Bool × ServerState :=
  match res with
  | .zero => (false, close_connection st i)
  | .eintr => (false, st)
  | .fail => (true, st)
  | .bytes _len => (false, st)

/-- Processing of one slot with a pending readiness event
(server.c:383-434): a non-`POLLIN` event closes the connection; slot 0
runs `accept_connection`; otherwise the client's timer is rearmed
(closing the connection if arming fails) and the data is read. -/
def processSlot (orc : IterOracles) (st : ServerState) (i : Nat) : Bool × ServerState :=
  if reventsAt st i &&& POLLIN == 0 then (false, close_connection st i)
  else if i == 0 then (false, (accept_connection orc.accRet orc.accArmOk st).2)
  else if orc.armOk i then
    handle_recv (orc.recv i) { st with timers := st.timers.set i armedTimer } i
  else (false, close_connection st i)

/-- The dispatch `for` loop (server.c:367-435) over the given slot
indices, with `act` the remaining count of unprocessed active slots:
stops when all active slots are processed or `interrupt_triggered` is
observed; skips free slots and slots with no pending event; returns
(`fatal-read?`, state) and the list of slot indices actually
processed, in order. -/
def dispatchGo (orc : IterOracles) : List Nat → Nat → ServerState → (Bool × ServerState) × List Nat
  | [], _, st => ((false, st), [])
  | i :: rest, act, st =>
    if act == 0 || orc.intrDuring i then ((false, st), [])
    else if decide (fdAt st i < 0) || reventsAt st i == 0 then dispatchGo orc rest act st
    else
      let p := processSlot orc st i
      if p.1 then ((true, p.2), [i])
      else
        let r := dispatchGo orc rest (act - 1) p.2
        (r.1, i :: r.2)

/-- The effect of a successful `poll` (server.c:350): every slot's
`revents` is overwritten — with `rev i` for watched descriptors and
with `0` for negative (free) ones, as `poll` ignores those. -/
def do_poll (rev : Nat → Nat) (st : ServerState) : ServerState :=
  { st with
    pfds := (List.range st.pfds.length).map (fun i =>
      let p := st.pfds.getD i pfd0
      { p with revents := if p.fd < 0 then 0 else rev i }) }

/-- The value returned by a successful `poll`: the number of slots with a
nonzero `revents`. -/
def pollActive (st : ServerState) : Nat :=
  (st.pfds.filter (fun p => p.revents != 0)).length

/-- How one `while` iteration ends: `exitLoop ret st` models
`return ret` from `event_loop` with the table in state `st`;
`next ls` continues with the next iteration. -/
inductive IterStep where
  | exitLoop (ret : Nat) (st : ServerState)
  | next (ls : LoopState)
deriving Repr, DecidableEq

/-- Observable outcome of one iteration: how it ended, which clients the
timeout scan evicted, and which slots the dispatch loop processed. -/
structure IterOut where
  step : IterStep
  evicted : List Nat
  processed : List Nat
deriving Repr, DecidableEq

/-- One full iteration of the `while (1)` loop of `event_loop`
(server.c:317-436), for a table of `n = MAX_CONNECTIONS` slots:
check `interrupt_triggered` (server.c:321, `return 0`); run the
timeout check (server.c:329-347); `poll` (server.c:350) — `EINTR`
continues, any other failure is reported and returns 0; otherwise
dispatch the pending events (server.c:367-435), where a fatal read
returns 1. -/
def run_iteration (orc : IterOracles) (n : Nat) (ls : LoopState) : IterOut :=
  if orc.intrTop then
    { step := .exitLoop 0 ls.server, evicted := [], processed := [] }
  else
    let tc := check_timeouts orc.lateTimeout n ls
    match orc.pollRes with
    | .eintr => { step := .next tc.1, evicted := tc.2, processed := [] }
    | .failed => { step := .exitLoop 0 tc.1.server, evicted := tc.2, processed := [] }
    | .ready rev =>
      let st2 := do_poll rev tc.1.server
      let d := dispatchGo orc (List.range n) (pollActive st2) st2
      if d.1.1 then
        { step := .exitLoop 1 d.1.2, evicted := tc.2, processed := d.2 }
      else
        { step := .next { server := d.1.2, timeoutTriggered := tc.1.timeoutTriggered },
          evicted := tc.2, processed := d.2 }

/-- `main` (server.c:440-459): the event loop's return value is mapped to
the process exit status by `event_loop(...) ? EXIT_FAILURE : EXIT_SUCCESS`. -/
def main_status (ret : Nat) : Nat := if ret ≠ 0 then EXIT_FAILURE else EXIT_SUCCESS

/-- The closing loop of `shutdown_server` (server.c:305):
`close_connection` on every given slot in order. -/
def close_all : List Nat → ServerState → ServerState
  | [], st => st
  | i :: rest, st => close_all rest (close_connection st i)

/-- `shutdown_server` (server.c:303): close every slot of the table
(the timers are then destroyed via `destroy_timers`, modelled by
`destroy_timers` above). -/
def shutdown_server (st : ServerState) : ServerState :=
  close_all (List.range st.pfds.length) st

/- ### Supporting lemmas for the event-loop claims -/

theorem getD_out_of_range {α : Type} (l : List α) (j : Nat) (d : α)
    (h : l.length ≤ j) : l.getD j d = d := by
  simp [List.getD_eq_getElem?_getD, List.getElem?_eq_none h]

theorem getD_map_range {α : Type} (f : Nat → α) (n j : Nat) (d : α) :
    ((List.range n).map f).getD j d = if j < n then f j else d := by
  by_cases h : j < n
  · simp [List.getD_eq_getElem?_getD, List.getElem?_map, List.getElem?_range h, h]
  · have hlen : ((List.range n).map f).length ≤ j := by
      simp
      omega
    rw [getD_out_of_range _ _ _ hlen]
    simp [h]

theorem fdAt_do_poll (rev : Nat → Nat) (st : ServerState) (j : Nat) :
    fdAt (do_poll rev st) j = fdAt st j := by
  simp only [fdAt, do_poll]
  rw [getD_map_range]
  by_cases h : j < st.pfds.length
  · simp [h]
  · rw [if_neg h]
    rw [getD_out_of_range _ _ _ (Nat.le_of_not_lt h)]

theorem timerAt_do_poll (rev : Nat → Nat) (st : ServerState) (j : Nat) :
    timerAt (do_poll rev st) j = timerAt st j := rfl

theorem do_poll_pfds_length (rev : Nat → Nat) (st : ServerState) :
    (do_poll rev st).pfds.length = st.pfds.length := by
  simp [do_poll]

theorem do_poll_timers_length (rev : Nat → Nat) (st : ServerState) :
    (do_poll rev st).timers.length = st.timers.length := rfl

theorem reventsAt_do_poll_free (rev : Nat → Nat) (st : ServerState) (j : Nat)
    (h : fdAt st j < 0) : reventsAt (do_poll rev st) j = 0 := by
  simp only [fdAt] at h
  simp only [reventsAt, do_poll]
  rw [getD_map_range]
  by_cases hj : j < st.pfds.length
  · rw [if_pos hj]
    show (if (st.pfds.getD j pfd0).fd < 0 then 0 else rev j) = 0
    rw [if_pos h]
  · rw [if_neg hj]
    rfl

theorem revents_getD_set (pp : List Pollfd) (i : Nat) (e : Pollfd)
    (he : e.revents = (pp.getD i pfd0).revents) (j : Nat) :
    ((pp.set i e).getD j pfd0).revents = (pp.getD j pfd0).revents := by
  by_cases hji : i = j
  · subst hji
    by_cases hl : i < pp.length
    · rw [getD_set_self _ _ _ _ hl, he]
    · rw [List.set_eq_of_length_le (Nat.le_of_not_lt hl)]
  · rw [getD_set_ne _ _ _ _ _ hji]

theorem reventsAt_accept (a : Int) (ok : Bool) (st : ServerState) (j : Nat) :
    reventsAt (accept_connection a ok st).2 j = reventsAt st j := by
  unfold accept_connection
  by_cases ha : a < 0
  · rw [if_pos ha]
  · rw [if_neg ha]
    cases hf : findFreeSlot st with
    | none => rfl
    | some i =>
      simp only []
      by_cases hok : ok = true
      · rw [if_pos hok]
        show ((st.pfds.set i
            { st.pfds.getD i pfd0 with fd := a, events := POLLIN }).getD j pfd0).revents =
          (st.pfds.getD j pfd0).revents
        exact revents_getD_set st.pfds i
          { fd := a, events := POLLIN, revents := (st.pfds.getD i pfd0).revents } rfl j
      · rw [if_neg hok]
        rw [reventsAt_close]
        show ((st.pfds.set i
            { st.pfds.getD i pfd0 with fd := a, events := POLLIN }).getD j pfd0).revents =
          (st.pfds.getD j pfd0).revents
        exact revents_getD_set st.pfds i
          { fd := a, events := POLLIN, revents := (st.pfds.getD i pfd0).revents } rfl j

theorem reventsAt_processSlot (orc : IterOracles) (st : ServerState) (i j : Nat) :
    reventsAt (processSlot orc st i).2 j = reventsAt st j := by
  unfold processSlot
  by_cases h1 : (reventsAt st i &&& POLLIN == 0) = true
  · rw [if_pos h1]
    exact reventsAt_close st i j
  · rw [if_neg h1]
    by_cases h2 : (i == 0) = true
    · rw [if_pos h2]
      exact reventsAt_accept orc.accRet orc.accArmOk st j
    · rw [if_neg h2]
      by_cases h3 : orc.armOk i = true
      · rw [if_pos h3]
        cases hr : orc.recv i with
        | zero =>
          simp only [handle_recv]
          exact reventsAt_close { st with timers := st.timers.set i armedTimer } i j
        | eintr => rfl
        | fail => rfl
        | bytes len => rfl
      · rw [if_neg h3]
        exact reventsAt_close st i j

theorem dispatchGo_sublist (orc : IterOracles) :
    ∀ (l : List Nat) (act : Nat) (st : ServerState),
      List.Sublist (dispatchGo orc l act st).2 l := by
  intro l
  induction l with
  | nil =>
    intro act st
    exact List.Sublist.refl []
  | cons i rest ih =>
    intro act st
    simp only [dispatchGo]
    by_cases h1 : (act == 0 || orc.intrDuring i) = true
    · rw [if_pos h1]
      exact List.nil_sublist _
    · rw [if_neg h1]
      by_cases h2 : (decide (fdAt st i < 0) || (reventsAt st i == 0)) = true
      · rw [if_pos h2]
        exact List.Sublist.cons i (ih act st)
      · rw [if_neg h2]
        by_cases h3 : (processSlot orc st i).1 = true
        · rw [if_pos h3]
          exact List.Sublist.cons₂ i (List.nil_sublist rest)
        · rw [if_neg h3]
          exact List.Sublist.cons₂ i (ih (act - 1) (processSlot orc st i).2)

theorem dispatchGo_processed_nonzero (orc : IterOracles) :
    ∀ (l : List Nat) (act : Nat) (st : ServerState),
      ∀ j ∈ (dispatchGo orc l act st).2, reventsAt st j ≠ 0 := by
  intro l
  induction l with
  | nil =>
    intro act st j hj
    exact absurd hj (List.not_mem_nil j)
  | cons i rest ih =>
    intro act st j hj
    simp only [dispatchGo] at hj
    by_cases h1 : (act == 0 || orc.intrDuring i) = true
    · rw [if_pos h1] at hj
      exact absurd hj (List.not_mem_nil j)
    · rw [if_neg h1] at hj
      by_cases h2 : (decide (fdAt st i < 0) || (reventsAt st i == 0)) = true
      · rw [if_pos h2] at hj
        exact ih act st j hj
      · rw [if_neg h2] at hj
        have hnz : reventsAt st i ≠ 0 := by
          have h2f := Bool.eq_false_iff.mpr h2
          have := (Bool.or_eq_false_iff.mp h2f).2
          intro h0
          rw [h0] at this
          simp at this
        by_cases h3 : (processSlot orc st i).1 = true
        · rw [if_pos h3] at hj
          have : j = i := List.mem_singleton.mp hj
          rw [this]
          exact hnz
        · rw [if_neg h3] at hj
          rcases List.mem_cons.mp hj with rfl | hjr
          · exact hnz
          · have := ih (act - 1) (processSlot orc st i).2 j hjr
            rw [reventsAt_processSlot orc st i j] at this
            exact this

theorem dispatchGo_processed_intr (orc : IterOracles) :
    ∀ (l : List Nat) (act : Nat) (st : ServerState),
      ∀ j ∈ (dispatchGo orc l act st).2, orc.intrDuring j = false := by
  intro l
  induction l with
  | nil =>
    intro act st j hj
    exact absurd hj (List.not_mem_nil j)
  | cons i rest ih =>
    intro act st j hj
    simp only [dispatchGo] at hj
    by_cases h1 : (act == 0 || orc.intrDuring i) = true
    · rw [if_pos h1] at hj
      exact absurd hj (List.not_mem_nil j)
    · rw [if_neg h1] at hj
      have hintr : orc.intrDuring i = false := by
        have h1f := Bool.eq_false_iff.mpr h1
        exact (Bool.or_eq_false_iff.mp h1f).2
      by_cases h2 : (decide (fdAt st i < 0) || (reventsAt st i == 0)) = true
      · rw [if_pos h2] at hj
        exact ih act st j hj
      · rw [if_neg h2] at hj
        by_cases h3 : (processSlot orc st i).1 = true
        · rw [if_pos h3] at hj
          rw [List.mem_singleton.mp hj]
          exact hintr
        · rw [if_neg h3] at hj
          rcases List.mem_cons.mp hj with rfl | hjr
          · exact hintr
          · exact ih (act - 1) (processSlot orc st i).2 j hjr

theorem scan_go_closed_fd (l : List Nat) (st : ServerState) (hnd : l.Nodup)
    (hb : ∀ i ∈ l, i < st.pfds.length ∧ i < st.timers.length)
    (i : Nat) (hi : i ∈ (scan_go l st).2) :
    fdAt (scan_go l st).1 i = -1 := by
  have hil : i ∈ l := (scan_go_closed_sublist l st).mem hi
  have hspec := scan_go_spec l st hnd hb i hil
  by_cases hc : 0 ≤ fdAt st i ∧ timer_expired (timerAt st i) = true
  · exact (hspec.1 hc).1
  · exact absurd hi (hspec.2 hc).2

theorem close_all_pfds_length : ∀ (l : List Nat) (st : ServerState),
    (close_all l st).pfds.length = st.pfds.length := by
  intro l
  induction l with
  | nil => intro st; rfl
  | cons i rest ih =>
    intro st
    simp only [close_all]
    rw [ih (close_connection st i), close_connection_pfds_length]

theorem close_all_timers_length : ∀ (l : List Nat) (st : ServerState),
    (close_all l st).timers.length = st.timers.length := by
  intro l
  induction l with
  | nil => intro st; rfl
  | cons i rest ih =>
    intro st
    simp only [close_all]
    rw [ih (close_connection st i), close_connection_timers_length]

theorem close_all_not_mem : ∀ (l : List Nat) (st : ServerState) (j : Nat), j ∉ l →
    slotUnchanged (close_all l st) st j := by
  intro l
  induction l with
  | nil => intro st j _; exact slotUnchanged_refl _ _
  | cons i rest ih =>
    intro st j hj
    have hji : j ≠ i := fun h => hj (h ▸ List.mem_cons_self i rest)
    have hjr : j ∉ rest := fun h => hj (List.mem_cons_of_mem i h)
    simp only [close_all]
    exact slotUnchanged_trans (ih (close_connection st i) j hjr)
      (slotUnchanged_close (Ne.symm hji))

theorem close_all_mem : ∀ (l : List Nat) (st : ServerState), l.Nodup →
    (∀ i ∈ l, i < st.pfds.length ∧ i < st.timers.length) →
    ∀ j ∈ l, fdAt (close_all l st) j = -1 ∧ timerAt (close_all l st) j = timer0 := by
  intro l
  induction l with
  | nil => intro st _ _ j hj; exact absurd hj (List.not_mem_nil j)
  | cons i rest ih =>
    intro st hnd hb j hj
    have hnd0 : i ∉ rest := (List.nodup_cons.mp hnd).1
    have hndr : rest.Nodup := (List.nodup_cons.mp hnd).2
    simp only [close_all]
    rcases List.mem_cons.mp hj with rfl | hjr
    · have hfr := close_all_not_mem rest (close_connection st j) j hnd0
      constructor
      · rw [hfr.1, fdAt_close_self st j (hb j hj).1]
      · rw [hfr.2.2.2, timerAt_close_self st j (hb j hj).2]
    · have hbr : ∀ k ∈ rest, k < (close_connection st i).pfds.length ∧
          k < (close_connection st i).timers.length := by
        intro k hk
        rw [close_connection_pfds_length, close_connection_timers_length]
        exact hb k (List.mem_cons_of_mem i hk)
      exact ih (close_connection st i) hndr hbr j hjr

theorem pairwise_lt_head_zero (l : List Nat) (h : l.Pairwise (· < ·)) (h0 : 0 ∈ l) :
    l.head? = some 0 := by
  cases l with
  | nil => exact absurd h0 (List.not_mem_nil 0)
  | cons a t =>
    rcases List.mem_cons.mp h0 with h1 | h1
    · simp [h1.symm]
    · exfalso
      have := (List.pairwise_cons.mp h).1 0 h1
      omega

theorem check_timeouts_flag_true (late : Bool) (n : Nat) (ls : LoopState)
    (h : ls.timeoutTriggered = true) :
    check_timeouts late n ls =
      ({ server := (timeout_scan ls.server n).1, timeoutTriggered := late },
        (timeout_scan ls.server n).2) := by
  simp only [check_timeouts, h, if_true]

theorem check_timeouts_flag_false (late : Bool) (n : Nat) (ls : LoopState)
    (h : ls.timeoutTriggered = false) :
    check_timeouts late n ls = ({ server := ls.server, timeoutTriggered := late }, []) := by
  simp [check_timeouts, h]

theorem run_iteration_ready (orc : IterOracles) (n : Nat) (ls : LoopState)
    (rev : Nat → Nat) (hintr : orc.intrTop = false)
    (hpoll : orc.pollRes = .ready rev) :
    (run_iteration orc n ls).evicted = (check_timeouts orc.lateTimeout n ls).2 ∧
    (run_iteration orc n ls).processed = (dispatchGo orc (List.range n)
      (pollActive (do_poll rev (check_timeouts orc.lateTimeout n ls).1.server))
      (do_poll rev (check_timeouts orc.lateTimeout n ls).1.server)).2 := by
  simp only [run_iteration, hintr, Bool.false_eq_true, if_false, hpoll]
  split
  · exact ⟨rfl, rfl⟩
  · exact ⟨rfl, rfl⟩

/- ### Concrete scenarios for the event-loop claims -/

/-- Listener (fd 3) plus one occupied client (fd 4, 20 s remaining);
no timeout pending. -/
def lsC6 : LoopState :=
  ⟨⟨[⟨3, POLLIN, 0⟩, ⟨4, POLLIN, 0⟩], [⟨0, 0⟩, ⟨20, 0⟩]⟩, false⟩

/-- `poll` reports read-readiness on every watched slot. -/
def revC6 : Nat → Nat := fun _ => POLLIN

/-- Iteration oracles: no interrupt at the top, `poll` succeeds with data
pending everywhere, but `interrupt_triggered` is observed set at every
check of the dispatch loop. -/
def orcC6 : IterOracles :=
  ⟨false, false, .ready revC6, -1, true, fun _ => true, fun _ => .bytes 5, fun _ => true⟩

/-- Iteration oracles: `interrupt_triggered` already set at the top of the
iteration. -/
def orcIntrTop : IterOracles :=
  ⟨true, false, .eintr, -1, true, fun _ => true, fun _ => .zero, fun _ => false⟩

/-- Iteration oracles: `poll` fails with an error other than `EINTR`. -/
def orcC3 : IterOracles :=
  ⟨false, false, .failed, -1, true, fun _ => true, fun _ => .zero, fun _ => false⟩

/-- Client slot 1 occupied with a pending `POLLIN` event recorded. -/
def stC4 : ServerState :=
  ⟨[⟨3, POLLIN, 0⟩, ⟨4, POLLIN, POLLIN⟩], [⟨0, 0⟩, ⟨12, 0⟩]⟩

/-- Iteration oracles whose `recv` is interrupted (`EINTR`) on every slot. -/
def orcC4 : IterOracles :=
  ⟨false, false, .eintr, -1, true, fun _ => true, fun _ => .eintr, fun _ => false⟩

/-- Listener plus two occupied clients; client 1's timer has expired,
client 2 has 15 s remaining; a timeout check is pending. -/
def lsC5 : LoopState :=
  ⟨⟨[⟨3, POLLIN, 0⟩, ⟨4, POLLIN, 0⟩, ⟨5, POLLIN, 0⟩],
    [⟨0, 0⟩, ⟨0, 0⟩, ⟨15, 0⟩]⟩, true⟩

/-- `poll` reports read-readiness on every watched slot. -/
def revC5 : Nat → Nat := fun _ => POLLIN

/-- Iteration oracles for the C5 witness: a connection request is pending
(`accept` returns fd 9) and every client read succeeds. -/
def orcC5 : IterOracles :=
  ⟨false, false, .ready revC5, 9, true, fun _ => true, fun _ => .bytes 3, fun _ => false⟩

/- ### Claim theorems C3, C4, C5, C6 -/

/-- C3 counterexample: when `poll` fails with an error other than `EINTR`,
`event_loop` executes `return 0` (server.c:361), so `main` exits with
`EXIT_SUCCESS` — not the failure status the claim requires for an
unrecoverable readiness-wait error. -/
theorem claim_C3_counterexample :
    (run_iteration orcC3 2 lsC6).step = .exitLoop 0 lsC6.server ∧
    main_status 0 = EXIT_SUCCESS ∧
    EXIT_SUCCESS ≠ EXIT_FAILURE := by decide

/-- C3 (amended): the process exits with a success status on orderly
shutdown (termination request observed at the top of an iteration)
and also on a readiness-wait (`poll`) failure other than an
interrupt, which is reported and then treated as an orderly loop
exit (`return 0`); a failure exit status is produced exactly by a
nonzero `event_loop` return, which among the loop's exits happens
only for an unrecoverable data-read error (`return 1`). -/
theorem claim_C3_exit_status (orc : IterOracles) (n : Nat) (ls : LoopState)
    (rev : Nat → Nat) :
    (orc.intrTop = true →
      (run_iteration orc n ls).step = .exitLoop 0 ls.server ∧
      main_status 0 = EXIT_SUCCESS) ∧
    (orc.intrTop = false → orc.pollRes = .failed →
      (run_iteration orc n ls).step =
        .exitLoop 0 (check_timeouts orc.lateTimeout n ls).1.server ∧
      main_status 0 = EXIT_SUCCESS) ∧
    (orc.intrTop = false → orc.pollRes = .ready rev →
      (dispatchGo orc (List.range n)
        (pollActive (do_poll rev (check_timeouts orc.lateTimeout n ls).1.server))
        (do_poll rev (check_timeouts orc.lateTimeout n ls).1.server)).1.1 = true →
      (run_iteration orc n ls).step =
        .exitLoop 1 (dispatchGo orc (List.range n)
          (pollActive (do_poll rev (check_timeouts orc.lateTimeout n ls).1.server))
          (do_poll rev (check_timeouts orc.lateTimeout n ls).1.server)).1.2 ∧
      main_status 1 = EXIT_FAILURE) ∧
    (∀ r : Nat, main_status r = EXIT_FAILURE ↔ r ≠ 0) := by
  refine ⟨?_, ?_, ?_, ?_⟩
  · intro h
    constructor
    · simp only [run_iteration, h, if_true]
    · rfl
  · intro h hpoll
    constructor
    · simp only [run_iteration, h, Bool.false_eq_true, if_false, hpoll]
    · rfl
  · intro h hpoll hfatal
    constructor
    · simp only [run_iteration, h, Bool.false_eq_true, if_false, hpoll, hfatal, if_true]
    · rfl
  · intro r
    by_cases hr : r = 0
    · simp [main_status, hr, EXIT_FAILURE, EXIT_SUCCESS]
    · simp [main_status, hr, EXIT_FAILURE]

/-- Witness for the amended C3: a non-`EINTR` poll failure produces a
success exit status. -/
theorem claim_C3_exit_status_witness :
    (run_iteration orcC3 2 lsC6).step =
      .exitLoop 0 (check_timeouts false 2 lsC6).1.server ∧
    main_status 0 = EXIT_SUCCESS :=
  (claim_C3_exit_status orcC3 2 lsC6 revC6).2.1 rfl rfl

/-- C4: when the `recv` from an occupied client slot returns `EINTR`, the
handler just `continue`s: the read attempt itself leaves the whole
table exactly as it was (first conjunct), so the slot is merely
skipped for this iteration. In the full client branch the only state
change before such a read is the timer rearm at server.c:405, which
precedes the read attempt: every descriptor, every occupancy, every
`revents`, and every other slot's timer are untouched. -/
theorem claim_C4_eintr_frame (orc : IterOracles) (st : ServerState) (i : Nat)
    (hi : i ≠ 0) (hpollin : (reventsAt st i &&& POLLIN == 0) = false)
    (harm : orc.armOk i = true) (hrecv : orc.recv i = .eintr) :
    handle_recv RecvRes.eintr st i = (false, st) ∧
    processSlot orc st i = (false, { st with timers := st.timers.set i armedTimer }) ∧
    (∀ j, fdAt (processSlot orc st i).2 j = fdAt st j) ∧
    (∀ j, reventsAt (processSlot orc st i).2 j = reventsAt st j) ∧
    (∀ j, j ≠ i → timerAt (processSlot orc st i).2 j = timerAt st j) := by
  have hps : processSlot orc st i =
      (false, { st with timers := st.timers.set i armedTimer }) := by
    unfold processSlot
    rw [if_neg (by rw [hpollin]; exact Bool.false_ne_true)]
    rw [if_neg (by simp [hi])]
    rw [if_pos harm, hrecv]
    rfl
  refine ⟨rfl, hps, ?_, ?_, ?_⟩
  · intro j
    rw [hps]
    rfl
  · intro j
    rw [hps]
    rfl
  · intro j hji
    rw [hps]
    simp only [timerAt]
    rw [getD_set_ne _ _ _ _ _ (fun h => hji h.symm)]

/-- Witness for C4: an `EINTR` read on occupied slot 1 of `stC4`. -/
theorem claim_C4_eintr_frame_witness :
    handle_recv RecvRes.eintr stC4 1 = (false, stC4) ∧
    processSlot orcC4 stC4 1 =
      (false, { stC4 with timers := stC4.timers.set 1 armedTimer }) := by
  have h := claim_C4_eintr_frame orcC4 stC4 1 (by decide) (by decide) rfl rfl
  exact ⟨h.1, h.2.1⟩

/-- C5: within one iteration the timeout scan runs before `poll` and thus
before any dispatch (this sequencing is the very structure of
`run_iteration`, mirroring server.c:329→350→367); the evicted indices
and the processed indices are each strictly ascending (slots are
scanned in ascending order), the listener 0 — when serviced at all —
is serviced first in the pass, and a slot evicted by the timeout scan
is never dispatched for I/O in the same pass: its descriptor is `-1`
at poll time, so `poll` reports no event for it, and even if the
listener refills it during the pass its `revents` remains zero. -/
theorem claim_C5_ordering (orc : IterOracles) (n : Nat) (ls : LoopState)
    (rev : Nat → Nat) (hp : ls.server.pfds.length = n)
    (ht : ls.server.timers.length = n) (hintr : orc.intrTop = false)
    (hpoll : orc.pollRes = .ready rev) :
    (run_iteration orc n ls).evicted.Pairwise (· < ·) ∧
    (run_iteration orc n ls).processed.Pairwise (· < ·) ∧
    (0 ∈ (run_iteration orc n ls).processed →
      (run_iteration orc n ls).processed.head? = some 0) ∧
    (∀ i ∈ (run_iteration orc n ls).evicted, i ∉ (run_iteration orc n ls).processed) := by
  obtain ⟨hev, hpr⟩ := run_iteration_ready orc n ls rev hintr hpoll
  have hprocessed_pw : (run_iteration orc n ls).processed.Pairwise (· < ·) := by
    rw [hpr]
    exact (List.pairwise_lt_range n).sublist (dispatchGo_sublist orc (List.range n) _ _)
  refine ⟨?_, hprocessed_pw, ?_, ?_⟩
  · rw [hev]
    by_cases hflag : ls.timeoutTriggered = true
    · rw [check_timeouts_flag_true _ _ _ hflag]
      exact (List.pairwise_lt_range' 1 (n - 1)).sublist
        (scan_go_closed_sublist (List.range' 1 (n - 1)) ls.server)
    · rw [check_timeouts_flag_false _ _ _ (Bool.eq_false_iff.mpr hflag)]
      exact List.Pairwise.nil
  · intro h0
    exact pairwise_lt_head_zero _ hprocessed_pw h0
  · intro i hiev
    rw [hev] at hiev
    rw [hpr]
    by_cases hflag : ls.timeoutTriggered = true
    · rw [check_timeouts_flag_true _ _ _ hflag] at hiev ⊢
      have hnd : (List.range' 1 (n - 1)).Nodup := List.nodup_range' ..
      have hb : ∀ k ∈ List.range' 1 (n - 1),
          k < ls.server.pfds.length ∧ k < ls.server.timers.length := by
        intro k hk
        rw [List.mem_range'_1] at hk
        rw [hp, ht]
        omega
      have hfd : fdAt (timeout_scan ls.server n).1 i = -1 :=
        scan_go_closed_fd (List.range' 1 (n - 1)) ls.server hnd hb i hiev
      have hrv : reventsAt (do_poll rev (timeout_scan ls.server n).1) i = 0 := by
        apply reventsAt_do_poll_free
        rw [hfd]
        decide
      intro hmem
      have := dispatchGo_processed_nonzero orc (List.range n)
        (pollActive (do_poll rev (timeout_scan ls.server n).1))
        (do_poll rev (timeout_scan ls.server n).1) i hmem
      exact this hrv
    · rw [check_timeouts_flag_false _ _ _ (Bool.eq_false_iff.mpr hflag)] at hiev
      exact absurd hiev (List.not_mem_nil i)

/-- Witness for C5: with client 1 evicted by the scan and slots 0 and 2
serviced, the processed list is ascending and the evicted client is
not serviced in the same pass. -/
theorem claim_C5_ordering_witness :
    (run_iteration orcC5 3 lsC5).processed.Pairwise (· < ·) ∧
    1 ∉ (run_iteration orcC5 3 lsC5).processed := by
  have h := claim_C5_ordering orcC5 3 lsC5 revC5 rfl rfl rfl rfl
  exact ⟨h.2.1, h.2.2.2 1 (by decide)⟩

/-- C6 counterexample: the dispatch loop condition
`!interrupt_triggered` (server.c:367) makes the loop abandon the
already-observed readiness events once the shutdown flag is set: in
this concrete iteration `poll` reported data on client 1, yet nothing
is processed, the iteration ends, and the next iteration exits the
loop — contradicting "exits only after completing, not abandoning,
the processing of the readiness events already observed". -/
theorem claim_C6_counterexample :
    (run_iteration orcC6 2 lsC6).processed = [] ∧
    reventsAt (do_poll revC6 lsC6.server) 1 = POLLIN ∧
    (run_iteration orcC6 2 lsC6).step = .next ⟨do_poll revC6 lsC6.server, false⟩ ∧
    (run_iteration orcIntrTop 2 ⟨do_poll revC6 lsC6.server, false⟩).step =
      .exitLoop 0 (do_poll revC6 lsC6.server) := by decide

/-- C6 (amended): a shutdown flag observed at the top of an iteration
makes the loop exit immediately (with nothing of that iteration
processed); a flag observed during the dispatch scan stops the scan
there, abandoning the remaining observed events — no slot is
processed at or after an index where the flag is observed set; after
the loop exits, `shutdown_server` closes every slot (descriptor set
to `-1`, timer disarmed) and `destroy_timers` releases every timer
allocated at startup. -/
theorem claim_C6_shutdown_after_flag (orc : IterOracles) (n : Nat) (ls : LoopState) :
    (orc.intrTop = true →
      (run_iteration orc n ls).step = .exitLoop 0 ls.server ∧
      (run_iteration orc n ls).processed = []) ∧
    (∀ j ∈ (run_iteration orc n ls).processed, orc.intrDuring j = false) ∧
    (∀ st : ServerState, st.pfds.length ≤ st.timers.length →
      ∀ j, j < st.pfds.length →
        fdAt (shutdown_server st) j = -1 ∧ timerAt (shutdown_server st) j = timer0) ∧
    (∀ deleteOk : Nat → Bool, (∀ i, deleteOk i = true) → ∀ m j,
      (destroy_timers deleteOk (List.replicate m true) m).1.getD j false = false) := by
  refine ⟨?_, ?_, ?_, ?_⟩
  · intro h
    constructor
    · simp only [run_iteration, h, if_true]
    · simp only [run_iteration, h, if_true]
  · intro j hj
    by_cases h : orc.intrTop = true
    · simp only [run_iteration, h, if_true] at hj
      exact absurd hj (List.not_mem_nil j)
    · have hfalse : orc.intrTop = false := Bool.eq_false_iff.mpr h
      cases hpoll : orc.pollRes with
      | eintr =>
        simp only [run_iteration, hfalse, Bool.false_eq_true, if_false, hpoll] at hj
        exact absurd hj (List.not_mem_nil j)
      | failed =>
        simp only [run_iteration, hfalse, Bool.false_eq_true, if_false, hpoll] at hj
        exact absurd hj (List.not_mem_nil j)
      | ready rev =>
        have := run_iteration_ready orc n ls rev hfalse hpoll
        rw [this.2] at hj
        exact dispatchGo_processed_intr orc (List.range n) _ _ j hj
  · intro st hlen j hj
    apply close_all_mem (List.range st.pfds.length) st (List.nodup_range _)
    · intro k hk
      rw [List.mem_range] at hk
      exact ⟨hk, by omega⟩
    · exact List.mem_range.mpr hj
  · intro deleteOk hdel m j
    have h := (destroy_go_all_ok deleteOk hdel (List.range m) (List.replicate m true)).2 j
    rw [destroy_timers, h]
    by_cases hjm : j ∈ List.range m
    · simp [hjm]
    · simp only [hjm, if_false]
      rw [List.mem_range] at hjm
      rw [getD_out_of_range]
      rw [List.length_replicate]
      omega

/-- Witness for the amended C6: the flag set at the top exits with
nothing processed. -/
theorem claim_C6_shutdown_after_flag_witness :
    (run_iteration orcIntrTop 2 lsC6).step = .exitLoop 0 lsC6.server ∧
    (run_iteration orcIntrTop 2 lsC6).processed = [] :=
  (claim_C6_shutdown_after_flag orcIntrTop 2 lsC6).1 rfl

end TimeoutServer
